import Mathlib

/-!
Verification development for the RAG document-analyzer backend.

Texts are modelled as `List Char`; offsets are natural numbers (the Python
code only ever runs the chunker with `chunk_overlap < chunk_size`, in which
regime all offsets stay non-negative, so `Nat` arithmetic coincides with
the integer arithmetic of Python).  Rationals stand in for Python floats.
-/

namespace RagSpec

/-! ## pdf_processor.clean_text -/

/-- Whitespace characters removed by str.strip (ASCII range). -/
def isPySpace (c : Char) : Bool :=
  c == ' ' || c == '\t' || c == '\n' || c == '\r' || c == '\x0b' || c == '\x0c'

/-- Model of the regex substitution replacing runs of spaces by one space
(line 150 of pdf_processor.py): of two adjacent spaces the first is dropped. -/
def collapseSpaces : List Char → List Char
  | [] => []
  | [c] => [c]
  | c1 :: c2 :: rest =>
      if c1 = ' ' ∧ c2 = ' ' then collapseSpaces (c2 :: rest)
      else c1 :: collapseSpaces (c2 :: rest)

/-- Model of the regex substitution replacing runs of three or more newlines
by exactly two (line 153): of three adjacent newlines the first is dropped. -/
def collapseNewlines : List Char → List Char
  | [] => []
  | [c] => [c]
  | [c, d] => [c, d]
  | c1 :: c2 :: c3 :: rest =>
      if c1 = '\n' ∧ c2 = '\n' ∧ c3 = '\n' then collapseNewlines (c2 :: c3 :: rest)
      else c1 :: collapseNewlines (c2 :: c3 :: rest)

/-- Model of text.replace of the NUL character by the empty string (line 156). -/
def removeNul (l : List Char) : List Char := l.filter (fun c => !(c == '\x00'))

/-- Drop the trailing characters satisfying p (used to model str.strip). -/
def dropTrailing (p : Char → Bool) : List Char → List Char
  | [] => []
  | c :: rest =>
      if dropTrailing p rest = [] ∧ p c then [] else c :: dropTrailing p rest

/-- Model of str.strip (line 159). -/
def pyStrip (l : List Char) : List Char :=
  dropTrailing isPySpace (l.dropWhile isPySpace)

/-- PDFProcessor.clean_text (pdf_processor.py lines 134-161). -/
def clean_text (t : List Char) : List Char :=
  pyStrip (removeNul (collapseNewlines (collapseSpaces t)))

/-! ## pdf_processor.chunk_text -/

/-- The characters at which a chunk boundary may stop (line 198). -/
def isStopChar (c : Char) : Bool :=
  c == ' ' || c == '\n' || c == '.' || c == '!' || c == '?'

/-- The inner while loop of chunk_text (lines 196-199): starting from
`base = start + chunk_size`, advance the end position while it is inside the
text and the character there is not a stop character. -/
def extendEnd (l : List Char) (base : Nat) : Nat :=
  base + ((l.drop base).takeWhile (fun c => !(isStopChar c))).length

def digitsToNat (ds : List Char) : Nat :=
  ds.foldl (fun a c => a * 10 + (c.toNat - 48)) 0

/-- Try to match the marker regex at the head of the list:
an opening bracket, the word Page, a space, one or more digits, and a
closing bracket. -/
def matchPageAt (l : List Char) : Option Nat :=
  match l with
  | '[' :: 'P' :: 'a' :: 'g' :: 'e' :: ' ' :: rest =>
      let ds := rest.takeWhile Char.isDigit
      if ds.isEmpty then none
      else
        match rest.drop ds.length with
        | ']' :: _ => some (digitsToNat ds)
        | _ => none
  | _ => none

/-- Model of _get_page_number for the page_texts = None case (lines 241-246):
re.search of the page-marker regex over the chunk text, leftmost match. -/
def getPageNumber : List Char → Option Nat
  | [] => none
  | c :: rest =>
      match matchPageAt (c :: rest) with
      | some n => some n
      | none => getPageNumber rest

/-- One chunk dictionary produced by chunk_text (lines 208-215). -/
structure Chunk where
  id : Nat
  text : List Char
  start_char : Nat
  end_char : Nat
  page_number : Option Nat
  chunk_length : Nat
deriving DecidableEq, Repr

/-- The while loop of chunk_text (lines 191-225), with page_texts = None.
`fuel` dominates the number of iterations; `cleaned.length + 1` steps are
always enough when the overlap is smaller than the chunk size, because then
`start` advances by at least one per iteration. -/
def chunkLoop (S O : Nat) (l : List Char) : Nat → Nat → Nat → List Chunk
  | 0, _, _ => []
  | fuel + 1, start, cid =>
      if start < l.length then
        let e := extendEnd l (start + S)
        let ctext := pyStrip ((l.take e).drop start)
        if ctext = [] then
          if e - O = 0 ∧ l.length ≤ e then []
          else chunkLoop S O l fuel (e - O) cid
        else
          ⟨cid, ctext, start, e, getPageNumber ctext, ctext.length⟩ ::
            (if e - O = 0 ∧ l.length ≤ e then []
             else chunkLoop S O l fuel (e - O) (cid + 1))
      else []

/-- PDFProcessor.chunk_text (lines 163-228): clean the text first, then run
the chunking loop from offset 0. -/
def chunk_text (S O : Nat) (t : List Char) : List Chunk :=
  chunkLoop S O (clean_text t) ((clean_text t).length + 1) 0 0

/-! ## Contiguous-substring infrastructure for the cleaning lemmas -/

/-- u occurs as a contiguous block inside l. -/
def isSub (u l : List Char) : Prop := ∃ a b, l = a ++ u ++ b

theorem isSub_cons (c : Char) {u l : List Char} (h : isSub u l) : isSub u (c :: l) := by
  obtain ⟨a, b, rfl⟩ := h
  exact ⟨c :: a, b, rfl⟩

theorem isSub_split {u l : List Char} {c : Char} (h : isSub u (c :: l)) :
    (∃ b, c :: l = u ++ b) ∨ isSub u l := by
  obtain ⟨a, b, hab⟩ := h
  cases a with
  | nil => exact Or.inl ⟨b, by simpa using hab⟩
  | cons x a =>
      injection hab with h1 h2
      exact Or.inr ⟨a, b, h2⟩

theorem isSub_mem {u l : List Char} (h : isSub u l) {c : Char} (hc : c ∈ u) : c ∈ l := by
  obtain ⟨a, b, rfl⟩ := h
  simp [hc]

theorem isSub_length {u l : List Char} (h : isSub u l) : u.length ≤ l.length := by
  obtain ⟨a, b, rfl⟩ := h
  simp
  omega

/-- No two adjacent spaces anywhere in the list. -/
def noDS (l : List Char) : Prop := ¬ isSub [' ', ' '] l

/-- No three adjacent newlines anywhere in the list. -/
def noTN (l : List Char) : Prop := ¬ isSub ['\n', '\n', '\n'] l

theorem noDS_tail {c : Char} {l : List Char} (h : noDS (c :: l)) : noDS l :=
  fun hs => h (isSub_cons c hs)

theorem noTN_tail {c : Char} {l : List Char} (h : noTN (c :: l)) : noTN l :=
  fun hs => h (isSub_cons c hs)

theorem noDS_pair {c d : Char} {l : List Char} (h : noDS (c :: d :: l)) :
    ¬(c = ' ' ∧ d = ' ') := by
  rintro ⟨rfl, rfl⟩
  exact h ⟨[], l, rfl⟩

theorem noTN_triple {c d e : Char} {l : List Char} (h : noTN (c :: d :: e :: l)) :
    ¬(c = '\n' ∧ d = '\n' ∧ e = '\n') := by
  rintro ⟨rfl, rfl, rfl⟩
  exact h ⟨[], l, rfl⟩

theorem noDS_short {l : List Char} (h : l.length ≤ 1) : noDS l :=
  fun hs => by have := isSub_length hs; simp at this; omega

theorem noTN_short {l : List Char} (h : l.length ≤ 2) : noTN l :=
  fun hs => by have := isSub_length hs; simp at this; omega

/-! ## Fixpoint lemmas for the space-collapsing pass -/

theorem collapseSpaces_cons : ∀ (l : List Char) (c : Char),
    ∃ t, collapseSpaces (c :: l) = c :: t
  | [], c => ⟨[], rfl⟩
  | d :: l, c => by
      obtain ⟨t, ht⟩ := collapseSpaces_cons l d
      by_cases h : c = ' ' ∧ d = ' '
      · refine ⟨t, ?_⟩
        obtain ⟨hc, hd⟩ := h
        subst hc
        rw [collapseSpaces, if_pos ⟨rfl, hd⟩, ht, hd]
      · exact ⟨collapseSpaces (d :: l), by rw [collapseSpaces, if_neg h]⟩

theorem collapseSpaces_eq_self : ∀ (l : List Char), noDS l → collapseSpaces l = l
  | [], _ => rfl
  | [c], _ => rfl
  | c :: d :: l, h => by
      rw [collapseSpaces, if_neg (noDS_pair h), collapseSpaces_eq_self (d :: l) (noDS_tail h)]

theorem noDS_collapseSpaces : ∀ l : List Char, noDS (collapseSpaces l)
  | [] => noDS_short (by decide)
  | [c] => noDS_short (by simp [collapseSpaces])
  | c :: d :: l => by
      have ih := noDS_collapseSpaces (d :: l)
      by_cases h : c = ' ' ∧ d = ' '
      · rw [collapseSpaces, if_pos h]
        exact ih
      · rw [collapseSpaces, if_neg h]
        obtain ⟨t, ht⟩ := collapseSpaces_cons l d
        rw [ht]
        intro hs
        rcases isSub_split hs with ⟨b, hb⟩ | hs2
        · injection hb with h1 h2
          injection h2 with h3 h4
          exact h ⟨h1, h3⟩
        · rw [← ht] at hs2
          exact ih hs2

theorem mem_collapseSpaces : ∀ (l : List Char) {c : Char}, c ∈ collapseSpaces l → c ∈ l
  | [], _, hc => hc
  | [c], _, hc => hc
  | c :: d :: l, e, hc => by
      by_cases h : c = ' ' ∧ d = ' '
      · rw [collapseSpaces, if_pos h] at hc
        exact List.mem_cons_of_mem c (mem_collapseSpaces (d :: l) hc)
      · rw [collapseSpaces, if_neg h] at hc
        rcases List.mem_cons.mp hc with rfl | hc2
        · exact List.mem_cons_self _ _
        · exact List.mem_cons_of_mem c (mem_collapseSpaces (d :: l) hc2)

/-! ## Fixpoint lemmas for the newline-collapsing pass -/

theorem collapseNewlines_cons2 : ∀ (l : List Char) (c d : Char),
    ∃ t, collapseNewlines (c :: d :: l) = c :: d :: t
  | [], c, d => ⟨[], rfl⟩
  | e :: l, c, d => by
      obtain ⟨t, ht⟩ := collapseNewlines_cons2 l d e
      by_cases h : c = '\n' ∧ d = '\n' ∧ e = '\n'
      · refine ⟨t, ?_⟩
        obtain ⟨hc, hd, he⟩ := h
        subst hc
        rw [collapseNewlines, if_pos ⟨rfl, hd, he⟩, ht, hd, he]
      · exact ⟨e :: t, by rw [collapseNewlines, if_neg h, ht]⟩

theorem collapseNewlines_eq_self : ∀ (l : List Char), noTN l → collapseNewlines l = l
  | [], _ => rfl
  | [c], _ => rfl
  | [c, d], _ => rfl
  | c :: d :: e :: l, h => by
      rw [collapseNewlines, if_neg (noTN_triple h),
        collapseNewlines_eq_self (d :: e :: l) (noTN_tail h)]

theorem noTN_collapseNewlines : ∀ l : List Char, noTN (collapseNewlines l)
  | [] => noTN_short (by decide)
  | [c] => noTN_short (by simp [collapseNewlines])
  | [c, d] => noTN_short (by simp [collapseNewlines])
  | c :: d :: e :: l => by
      have ih := noTN_collapseNewlines (d :: e :: l)
      by_cases h : c = '\n' ∧ d = '\n' ∧ e = '\n'
      · rw [collapseNewlines, if_pos h]
        exact ih
      · rw [collapseNewlines, if_neg h]
        obtain ⟨t, ht⟩ := collapseNewlines_cons2 l d e
        rw [ht]
        intro hs
        rcases isSub_split hs with ⟨b, hb⟩ | hs2
        · injection hb with h1 h2
          injection h2 with h3 h4
          injection h4 with h5 h6
          exact h ⟨h1, h3, h5⟩
        · rw [← ht] at hs2
          exact ih hs2

theorem noDS_collapseNewlines : ∀ l : List Char, noDS l → noDS (collapseNewlines l)
  | [], h => h
  | [c], h => h
  | [c, d], h => h
  | c :: d :: e :: l, h => by
      have ih := noDS_collapseNewlines (d :: e :: l) (noDS_tail h)
      by_cases hc : c = '\n' ∧ d = '\n' ∧ e = '\n'
      · rw [collapseNewlines, if_pos hc]
        exact ih
      · rw [collapseNewlines, if_neg hc]
        obtain ⟨t, ht⟩ := collapseNewlines_cons2 l d e
        rw [ht]
        intro hs
        rcases isSub_split hs with ⟨b, hb⟩ | hs2
        · injection hb with h1 h2
          injection h2 with h3 h4
          exact noDS_pair h ⟨h1, h3⟩
        · rw [← ht] at hs2
          exact ih hs2

theorem mem_collapseNewlines : ∀ (l : List Char) {c : Char}, c ∈ collapseNewlines l → c ∈ l
  | [], _, hc => hc
  | [c], _, hc => hc
  | [c, d], _, hc => hc
  | c :: d :: e :: l, x, hc => by
      by_cases h : c = '\n' ∧ d = '\n' ∧ e = '\n'
      · rw [collapseNewlines, if_pos h] at hc
        exact List.mem_cons_of_mem c (mem_collapseNewlines (d :: e :: l) hc)
      · rw [collapseNewlines, if_neg h] at hc
        rcases List.mem_cons.mp hc with rfl | hc2
        · exact List.mem_cons_self _ _
        · exact List.mem_cons_of_mem c (mem_collapseNewlines (d :: e :: l) hc2)

/-! ## Lemmas about stripping -/

theorem dropWhile_sub (p : Char → Bool) : ∀ l : List Char, ∃ a, l = a ++ l.dropWhile p
  | [] => ⟨[], rfl⟩
  | c :: l => by
      by_cases h : p c
      · obtain ⟨a, ha⟩ := dropWhile_sub p l
        refine ⟨c :: a, ?_⟩
        rw [List.dropWhile_cons, if_pos h]
        simpa using ha
      · refine ⟨[], ?_⟩
        rw [List.dropWhile_cons, if_neg h]
        simp

theorem dropTrailing_sub (p : Char → Bool) : ∀ l : List Char, ∃ b, l = dropTrailing p l ++ b
  | [] => ⟨[], rfl⟩
  | c :: l => by
      by_cases h : dropTrailing p l = [] ∧ p c
      · exact ⟨c :: l, by rw [dropTrailing, if_pos h]; simp⟩
      · obtain ⟨b, hb⟩ := dropTrailing_sub p l
        refine ⟨b, ?_⟩
        rw [dropTrailing, if_neg h]
        simpa using hb

theorem pyStrip_sub (l : List Char) : ∃ a b, l = a ++ pyStrip l ++ b := by
  obtain ⟨a, ha⟩ := dropWhile_sub isPySpace l
  obtain ⟨b, hb⟩ := dropTrailing_sub isPySpace (l.dropWhile isPySpace)
  refine ⟨a, b, ?_⟩
  conv_lhs => rw [ha, hb]
  simp [pyStrip]

theorem isSub_pyStrip {u l : List Char} (h : isSub u (pyStrip l)) : isSub u l := by
  obtain ⟨x, y, hl⟩ := pyStrip_sub l
  obtain ⟨a, b, hab⟩ := h
  exact ⟨x ++ a, b ++ y, by rw [hl, hab]; simp⟩

theorem mem_pyStrip {c : Char} {l : List Char} (h : c ∈ pyStrip l) : c ∈ l := by
  obtain ⟨x, y, hl⟩ := pyStrip_sub l
  rw [hl]
  simp [h]

theorem noDS_pyStrip {l : List Char} (h : noDS l) : noDS (pyStrip l) :=
  fun hs => h (isSub_pyStrip hs)

theorem noTN_pyStrip {l : List Char} (h : noTN l) : noTN (pyStrip l) :=
  fun hs => h (isSub_pyStrip hs)

theorem dropTrailing_idem (p : Char → Bool) :
    ∀ l : List Char, dropTrailing p (dropTrailing p l) = dropTrailing p l
  | [] => rfl
  | c :: l => by
      by_cases h : dropTrailing p l = [] ∧ p c
      · rw [dropTrailing, if_pos h]
        rfl
      · rw [dropTrailing, if_neg h, dropTrailing, dropTrailing_idem p l, if_neg h]

theorem dropTrailing_cons_cases (p : Char → Bool) (c : Char) (l : List Char) :
    dropTrailing p (c :: l) = [] ∨ ∃ t, dropTrailing p (c :: l) = c :: t := by
  by_cases h : dropTrailing p l = [] ∧ p c
  · left
    rw [dropTrailing, if_pos h]
  · right
    exact ⟨dropTrailing p l, by rw [dropTrailing, if_neg h]⟩

theorem dropWhile_cases (p : Char → Bool) :
    ∀ l : List Char, l.dropWhile p = [] ∨ ∃ c t, l.dropWhile p = c :: t ∧ p c = false
  | [] => Or.inl rfl
  | c :: l => by
      by_cases h : p c
      · rw [List.dropWhile_cons, if_pos h]
        exact dropWhile_cases p l
      · rw [List.dropWhile_cons, if_neg h]
        exact Or.inr ⟨c, l, rfl, by simpa using h⟩

theorem pyStrip_dropWhile (l : List Char) :
    (pyStrip l).dropWhile isPySpace = pyStrip l := by
  unfold pyStrip
  rcases dropWhile_cases isPySpace l with hnil | ⟨c, t, hct, hpc⟩
  · rw [hnil]
    rfl
  · rw [hct]
    rcases dropTrailing_cons_cases isPySpace c t with h0 | ⟨t2, h2⟩
    · rw [h0]
      rfl
    · rw [h2, List.dropWhile_cons, if_neg (by simp [hpc])]

theorem pyStrip_idem (l : List Char) : pyStrip (pyStrip l) = pyStrip l := by
  show dropTrailing isPySpace ((pyStrip l).dropWhile isPySpace) = pyStrip l
  rw [pyStrip_dropWhile]
  show dropTrailing isPySpace (dropTrailing isPySpace (l.dropWhile isPySpace)) = pyStrip l
  rw [dropTrailing_idem]
  rfl

theorem pyStrip_clean_text (t : List Char) : pyStrip (clean_text t) = clean_text t :=
  pyStrip_idem _

/-! ## clean_text is idempotent on NUL-free input -/

theorem removeNul_eq_self {l : List Char} (h : '\x00' ∉ l) : removeNul l = l :=
  List.filter_eq_self.mpr (fun a ha => by
    simp only [Bool.not_eq_true', beq_eq_false_iff_ne, ne_eq]
    rintro rfl
    exact h ha)

theorem noNul_removeNul (l : List Char) : '\x00' ∉ removeNul l := by
  intro h
  have := List.mem_filter.mp h
  simp at this

theorem noNul_clean_text (t : List Char) : '\x00' ∉ clean_text t :=
  fun h => noNul_removeNul _ (mem_pyStrip h)

theorem clean_text_idem_of_noNul {u : List Char} (h : '\x00' ∉ u) :
    clean_text (clean_text u) = clean_text u := by
  have h1 : '\x00' ∉ collapseSpaces u := fun hm => h (mem_collapseSpaces _ hm)
  have h2 : '\x00' ∉ collapseNewlines (collapseSpaces u) :=
    fun hm => h1 (mem_collapseNewlines _ hm)
  have hv : clean_text u = pyStrip (collapseNewlines (collapseSpaces u)) := by
    unfold clean_text
    rw [removeNul_eq_self h2]
  have hDS : noDS (clean_text u) := by
    rw [hv]
    exact noDS_pyStrip (noDS_collapseNewlines _ (noDS_collapseSpaces _))
  have hTN : noTN (clean_text u) := by
    rw [hv]
    exact noTN_pyStrip (noTN_collapseNewlines _)
  calc clean_text (clean_text u)
      = pyStrip (removeNul (collapseNewlines (collapseSpaces (clean_text u)))) := rfl
    _ = pyStrip (removeNul (collapseNewlines (clean_text u))) := by
          rw [collapseSpaces_eq_self _ hDS]
    _ = pyStrip (removeNul (clean_text u)) := by
          rw [collapseNewlines_eq_self _ hTN]
    _ = pyStrip (clean_text u) := by
          rw [removeNul_eq_self (noNul_clean_text u)]
    _ = clean_text u := pyStrip_clean_text u

/-- Claim C7: chunking the cleaned text yields the same chunk list as chunking
the twice-cleaned text: chunk_text applied to clean_text T equals chunk_text
applied to clean_text (clean_text T), for every chunk size and overlap. -/
theorem chunk_clean_idem (S O : Nat) (t : List Char) :
    chunk_text S O (clean_text t) = chunk_text S O (clean_text (clean_text t)) := by
  unfold chunk_text
  rw [clean_text_idem_of_noNul (noNul_clean_text t)]

/-! ## Claim C1: behaviour of chunk_text on short texts -/

theorem dropWhile_eq_self_of_all {p : Char → Bool} {l : List Char}
    (h : ∀ c ∈ l, p c = false) : l.dropWhile p = l := by
  cases l with
  | nil => rfl
  | cons c t =>
      rw [List.dropWhile_cons, if_neg (by simp [h c (List.mem_cons_self _ _)])]

theorem dropTrailing_eq_self_of_all (p : Char → Bool) :
    ∀ l : List Char, (∀ c ∈ l, p c = false) → dropTrailing p l = l
  | [], _ => rfl
  | c :: l, h => by
      have hc : p c = false := h c (List.mem_cons_self _ _)
      rw [dropTrailing, if_neg (by simp [hc]),
        dropTrailing_eq_self_of_all p l (fun d hd => h d (List.mem_cons_of_mem c hd))]

theorem pyStrip_eq_self_of_all {l : List Char}
    (h : ∀ c ∈ l, isPySpace c = false) : pyStrip l = l := by
  unfold pyStrip
  rw [dropWhile_eq_self_of_all h, dropTrailing_eq_self_of_all _ l h]

/-- Claim C1 (amended): when the cleaned text is nonempty and its length is at
most S - O, chunk_text returns exactly one chunk whose text is the whole
cleaned text (which clean_text has already trimmed). -/
theorem chunk_text_single (S O : Nat) (t : List Char) (hOS : O < S)
    (hne : clean_text t ≠ []) (hlen : (clean_text t).length + O ≤ S) :
    chunk_text S O t =
      [⟨0, clean_text t, 0, S, getPageNumber (clean_text t), (clean_text t).length⟩] := by
  have hlS : (clean_text t).length ≤ S := by omega
  have h0 : 0 < (clean_text t).length := List.length_pos.mpr hne
  have he : extendEnd (clean_text t) (0 + S) = S := by
    unfold extendEnd
    rw [List.drop_eq_nil_of_le (by omega)]
    simp
  have hctext : pyStrip (((clean_text t).take S).drop 0) = clean_text t := by
    rw [List.drop_zero, List.take_of_length_le hlS, pyStrip_clean_text]
  unfold chunk_text
  simp only [chunkLoop]
  rw [if_pos h0, he, hctext, if_neg hne,
    if_neg (by omega : ¬(S - O = 0 ∧ (clean_text t).length ≤ S))]
  suffices hz : chunkLoop S O (clean_text t) (clean_text t).length (S - O) (0 + 1) = [] by
    rw [hz]
  obtain ⟨n, hn⟩ : ∃ n, (clean_text t).length = n + 1 := ⟨(clean_text t).length - 1, by omega⟩
  rw [hn]
  simp only [chunkLoop]
  rw [if_neg (by omega : ¬(S - O < (clean_text t).length))]

/-- Witness for chunk_text_single at the default configuration (500, 50). -/
theorem chunk_text_single_witness :
    50 < 500 ∧ clean_text ['h', 'e', 'l', 'l', 'o'] ≠ [] ∧
      (clean_text ['h', 'e', 'l', 'l', 'o']).length + 50 ≤ 500 ∧
      chunk_text 500 50 ['h', 'e', 'l', 'l', 'o'] =
        [⟨0, clean_text ['h', 'e', 'l', 'l', 'o'], 0, 500,
          getPageNumber (clean_text ['h', 'e', 'l', 'l', 'o']),
          (clean_text ['h', 'e', 'l', 'l', 'o']).length⟩] :=
  ⟨by decide, by decide, by decide,
    chunk_text_single 500 50 ['h', 'e', 'l', 'l', 'o'] (by decide) (by decide) (by decide)⟩

/-- Two windows are produced when the cleaned text is longer than S - O but
at most S: the first window covers the whole text, and the loop then restarts
at S - O, still inside the text, emitting the stripped tail as a second
chunk. -/
theorem chunkLoop_two (S O : Nat) (l : List Char) (hOS : O < S)
    (h1 : S - O < l.length) (h2 : l.length ≤ S) (h3 : l.length ≤ 2 * (S - O))
    (hstrip : pyStrip l = l)
    (htail : pyStrip (l.drop (S - O)) = l.drop (S - O)) :
    (chunkLoop S O l (l.length + 1) 0 0).length = 2 := by
  have hne : l ≠ [] := by
    intro h
    rw [h] at h1
    simp at h1
  have htailne : l.drop (S - O) ≠ [] := by
    intro h
    have := congrArg List.length h
    rw [List.length_drop] at this
    simp at this
    omega
  have he1 : extendEnd l (0 + S) = S := by
    unfold extendEnd
    rw [List.drop_eq_nil_of_le (by omega)]
    simp
  have hs1 : pyStrip ((l.take S).drop 0) = l := by
    rw [List.drop_zero, List.take_of_length_le h2, hstrip]
  have he2 : extendEnd l (S - O + S) = S - O + S := by
    unfold extendEnd
    rw [List.drop_eq_nil_of_le (by omega)]
    simp
  have hs2 : pyStrip ((l.take (S - O + S)).drop (S - O)) = l.drop (S - O) := by
    rw [List.take_of_length_le (by omega), htail]
  simp only [chunkLoop]
  rw [if_pos (by omega : 0 < l.length), he1, hs1, if_neg hne,
    if_neg (by omega : ¬(S - O = 0 ∧ l.length ≤ S))]
  obtain ⟨n, hn⟩ : ∃ n, l.length = n + 1 := ⟨l.length - 1, by omega⟩
  have hn2 : 1 ≤ n := by omega
  rw [List.length_cons]
  suffices hz : (chunkLoop S O l l.length (S - O) (0 + 1)).length = 1 by omega
  rw [hn]
  simp only [chunkLoop]
  rw [if_pos (by omega : S - O < l.length), he2, hs2, if_neg htailne,
    if_neg (by omega : ¬(S - O + S - O = 0 ∧ l.length ≤ S - O + S))]
  obtain ⟨m, hm⟩ : ∃ m, n = m + 1 := ⟨n - 1, by omega⟩
  rw [List.length_cons]
  suffices hz2 : (chunkLoop S O l n (S - O + S - O) (0 + 1 + 1)).length = 0 by omega
  rw [hm]
  simp only [chunkLoop]
  rw [if_neg (by omega : ¬(S - O + S - O < l.length))]
  rfl

theorem clean_text_replicate (n : Nat) :
    clean_text (List.replicate n 'a') = List.replicate n 'a' := by
  have hDS : noDS (List.replicate n 'a') := by
    intro hs
    have hm := isSub_mem hs (show (' ' : Char) ∈ [' ', ' '] by simp)
    exact absurd (List.mem_replicate.mp hm).2 (by decide)
  have hTN : noTN (List.replicate n 'a') := by
    intro hs
    have hm := isSub_mem hs (show ('\n' : Char) ∈ ['\n', '\n', '\n'] by simp)
    exact absurd (List.mem_replicate.mp hm).2 (by decide)
  have hN : ('\x00' : Char) ∉ List.replicate n 'a' := by
    intro hm
    exact absurd (List.mem_replicate.mp hm).2 (by decide)
  unfold clean_text
  rw [collapseSpaces_eq_self _ hDS, collapseNewlines_eq_self _ hTN, removeNul_eq_self hN]
  exact pyStrip_eq_self_of_all (fun c hc => by rw [(List.mem_replicate.mp hc).2]; rfl)

theorem pyStrip_replicate (n : Nat) :
    pyStrip (List.replicate n 'a') = List.replicate n 'a' :=
  pyStrip_eq_self_of_all (fun c hc => by rw [(List.mem_replicate.mp hc).2]; rfl)

/-- Counterexample to claim C1 as stated: a text whose cleaned form has
length 460 (shorter than the chunk size 500) is split into two chunks, not
one, because after the first window start moves to 500 - 50 = 450, which is
still inside the text, so a second chunk is emitted. -/
theorem chunk_text_single_counterexample :
    (clean_text (List.replicate 460 'a')).length < 500 ∧
      (chunk_text 500 50 (List.replicate 460 'a')).length = 2 := by
  have hclean := clean_text_replicate 460
  refine ⟨?_, ?_⟩
  · rw [hclean, List.length_replicate]
    omega
  · unfold chunk_text
    rw [hclean]
    refine chunkLoop_two 500 50 (List.replicate 460 'a') (by omega) ?_ ?_ ?_ ?_ ?_
    · rw [List.length_replicate]
      omega
    · rw [List.length_replicate]
      omega
    · rw [List.length_replicate]
      omega
    · exact pyStrip_replicate 460
    · rw [show (500 - 50 : Nat) = 450 from rfl, List.drop_replicate,
        show (460 - 450 : Nat) = 10 from rfl]
      exact pyStrip_replicate 10

/-! ## rag_engine duplicate detection (claims C2 and C9) -/

/-- One stored document as seen by the duplicate scan: its identifier and
filename from list_documents, the content_hash entries of its stored chunk
metadata, and whether fetching those chunks raises. -/
structure StoredDoc where
  docId : String
  docFilename : String
  chunkHashes : List (Option String)
  fetchFails : Bool
deriving DecidableEq, Repr

/-- The document store, with a flag for whether listing the documents raises
(list_documents catches that error itself and returns an empty list). -/
structure DocStore where
  docs : List StoredDoc
  listFails : Bool
deriving DecidableEq, Repr

/-- RAGEngine.list_documents (rag_engine.py lines 498-519): returns the
stored documents, or an empty list when the underlying lookup raises. -/
def list_documents (s : DocStore) : List StoredDoc :=
  if s.listFails then [] else s.docs

/-- The dictionary returned by _check_duplicate on a match. -/
structure DupMatch where
  docId : String
  docFilename : String
  matchType : String
deriving DecidableEq, Repr

/-- The filename comparison on line 218 of rag_engine.py: an absent or empty
filename argument is falsy in Python and skips the check entirely. -/
def fnameMatches (fname : Option String) (d : StoredDoc) : Prop :=
  match fname with
  | some f => ¬(f = "") ∧ d.docFilename = f
  | none => False

instance (fname : Option String) (d : StoredDoc) : Decidable (fnameMatches fname d) := by
  unfold fnameMatches
  cases fname <;> infer_instance

/-- The for-loop of _check_duplicate (lines 216-235): per document, the
filename check runs first, then the stored chunk metadata is fetched and
scanned for the content hash; a fetch failure raises out of the loop. -/
def checkDupLoop (hash : String) (fname : Option String) :
    List StoredDoc → Except Unit (Option DupMatch)
  | [] => .ok none
  | d :: rest =>
      if fnameMatches fname d then
        .ok (some ⟨d.docId, d.docFilename, "filename"⟩)
      else if d.fetchFails then .error ()
      else if (some hash) ∈ d.chunkHashes then
        .ok (some ⟨d.docId, d.docFilename, "content_hash"⟩)
      else checkDupLoop hash fname rest

/-- RAGEngine._check_duplicate (lines 203-238): run the scan over
list_documents; any exception is caught and turned into None. -/
def check_duplicate (s : DocStore) (hash : String) (fname : Option String) :
    Option DupMatch :=
  match checkDupLoop hash fname (list_documents s) with
  | .ok r => r
  | .error _ => none

/-- The duplicate branch of process_document (lines 100-112): when
_check_duplicate returns a match the pipeline stops with status duplicate
(reporting the matched type); otherwise ingestion proceeds (modelled as
none). -/
def processDocumentDup (s : DocStore) (hash fname : String) :
    Option (String × String) :=
  (check_duplicate s hash (some fname)).map (fun m => ("duplicate", m.matchType))

theorem checkDupLoop_skip (hash : String) (fname : String) :
    ∀ pre rest : List StoredDoc,
      (∀ x ∈ pre, x.docFilename ≠ fname ∧ some hash ∉ x.chunkHashes ∧ x.fetchFails = false) →
      checkDupLoop hash (some fname) (pre ++ rest) = checkDupLoop hash (some fname) rest
  | [], rest, _ => rfl
  | d :: pre, rest, h => by
      obtain ⟨hf, hh, hff⟩ := h d (List.mem_cons_self _ _)
      rw [List.cons_append, checkDupLoop, if_neg (fun hc => hf hc.2), if_neg (by simp [hff]),
        if_neg hh]
      exact checkDupLoop_skip hash fname pre rest
        (fun x hx => h x (List.mem_cons_of_mem d hx))

/-- Claim C2: a content-hash match on a fresh filename is reported as a
content_hash duplicate; a filename match is reported as a filename duplicate;
and when one document matches both criteria the filename match wins, because
the per-document filename check runs first.  In each case process_document
stops with status duplicate. -/
theorem duplicate_detection :
    (∀ (pre post : List StoredDoc) (d : StoredDoc) (hash fname : String),
      fname ≠ "" →
      (∀ x ∈ pre, x.docFilename ≠ fname ∧ some hash ∉ x.chunkHashes ∧ x.fetchFails = false) →
      d.fetchFails = false → d.docFilename ≠ fname → some hash ∈ d.chunkHashes →
      check_duplicate ⟨pre ++ d :: post, false⟩ hash (some fname) =
          some ⟨d.docId, d.docFilename, "content_hash"⟩ ∧
        processDocumentDup ⟨pre ++ d :: post, false⟩ hash fname =
          some ("duplicate", "content_hash")) ∧
    (∀ (pre post : List StoredDoc) (d : StoredDoc) (hash fname : String),
      fname ≠ "" →
      (∀ x ∈ pre, x.docFilename ≠ fname ∧ some hash ∉ x.chunkHashes ∧ x.fetchFails = false) →
      d.docFilename = fname →
      check_duplicate ⟨pre ++ d :: post, false⟩ hash (some fname) =
          some ⟨d.docId, d.docFilename, "filename"⟩ ∧
        processDocumentDup ⟨pre ++ d :: post, false⟩ hash fname =
          some ("duplicate", "filename")) ∧
    (∀ (pre post : List StoredDoc) (d : StoredDoc) (hash fname : String),
      fname ≠ "" →
      (∀ x ∈ pre, x.docFilename ≠ fname ∧ some hash ∉ x.chunkHashes ∧ x.fetchFails = false) →
      d.docFilename = fname → some hash ∈ d.chunkHashes →
      check_duplicate ⟨pre ++ d :: post, false⟩ hash (some fname) =
          some ⟨d.docId, d.docFilename, "filename"⟩) := by
  have hbase : ∀ (pre post : List StoredDoc) (d : StoredDoc) (hash fname : String),
      (∀ x ∈ pre, x.docFilename ≠ fname ∧ some hash ∉ x.chunkHashes ∧ x.fetchFails = false) →
      check_duplicate ⟨pre ++ d :: post, false⟩ hash (some fname) =
        match checkDupLoop hash (some fname) (d :: post) with
        | .ok r => r
        | .error _ => none := by
    intro pre post d hash fname hpre
    unfold check_duplicate list_documents
    rw [if_neg (by simp), checkDupLoop_skip hash fname pre (d :: post) hpre]
  refine ⟨?_, ?_, ?_⟩
  · intro pre post d hash fname hfe hpre hff hdf hdh
    have hc : check_duplicate ⟨pre ++ d :: post, false⟩ hash (some fname) =
        some ⟨d.docId, d.docFilename, "content_hash"⟩ := by
      rw [hbase pre post d hash fname hpre, checkDupLoop,
        if_neg (fun hc => hdf hc.2), if_neg (by simp [hff]), if_pos hdh]
    exact ⟨hc, by rw [processDocumentDup, hc]; rfl⟩
  · intro pre post d hash fname hfe hpre hdf
    have hc : check_duplicate ⟨pre ++ d :: post, false⟩ hash (some fname) =
        some ⟨d.docId, d.docFilename, "filename"⟩ := by
      rw [hbase pre post d hash fname hpre, checkDupLoop, if_pos ⟨hfe, hdf⟩]
    exact ⟨hc, by rw [processDocumentDup, hc]; rfl⟩
  · intro pre post d hash fname hfe hpre hdf hdh
    rw [hbase pre post d hash fname hpre, checkDupLoop, if_pos ⟨hfe, hdf⟩]

/-- Witness for duplicate_detection on a two-document store. -/
theorem duplicate_detection_witness :
    check_duplicate ⟨[⟨"doc_1", "other.pdf", [some "h1"], false⟩], false⟩ "h1" (some "new.pdf") =
        some ⟨"doc_1", "other.pdf", "content_hash"⟩ ∧
      check_duplicate ⟨[⟨"doc_2", "same.pdf", [some "h2"], false⟩], false⟩ "h3" (some "same.pdf") =
        some ⟨"doc_2", "same.pdf", "filename"⟩ ∧
      check_duplicate ⟨[⟨"doc_3", "both.pdf", [some "h4"], false⟩], false⟩ "h4" (some "both.pdf") =
        some ⟨"doc_3", "both.pdf", "filename"⟩ :=
  ⟨(duplicate_detection.1 [] [] ⟨"doc_1", "other.pdf", [some "h1"], false⟩ "h1" "new.pdf"
      (by decide) (by simp) rfl (by decide) (by simp)).1,
    (duplicate_detection.2.1 [] [] ⟨"doc_2", "same.pdf", [some "h2"], false⟩ "h3" "same.pdf"
      (by decide) (by simp) rfl).1,
    duplicate_detection.2.2 [] [] ⟨"doc_3", "both.pdf", [some "h4"], false⟩ "h4" "both.pdf"
      (by decide) (by simp) rfl (by simp)⟩

/-- Claim C9: a failing duplicate scan is treated as no duplicate.  If
listing the documents fails the scan sees an empty list; if fetching a
chunk metadata of a document raises, the exception is caught and None is
returned even when that document is a true content-hash duplicate, so
process_document proceeds with ingestion. -/
theorem duplicate_scan_failure :
    (∀ (docs : List StoredDoc) (hash : String) (fname : Option String),
      check_duplicate ⟨docs, true⟩ hash fname = none) ∧
    (∀ (pre post : List StoredDoc) (d : StoredDoc) (hash fname : String),
      fname ≠ "" →
      (∀ x ∈ pre, x.docFilename ≠ fname ∧ some hash ∉ x.chunkHashes ∧ x.fetchFails = false) →
      d.fetchFails = true → d.docFilename ≠ fname → some hash ∈ d.chunkHashes →
      check_duplicate ⟨pre ++ d :: post, false⟩ hash (some fname) = none ∧
        processDocumentDup ⟨pre ++ d :: post, false⟩ hash fname = none) := by
  constructor
  · intro docs hash fname
    unfold check_duplicate list_documents
    rw [if_pos rfl]
    rfl
  · intro pre post d hash fname hfe hpre hff hdf hdh
    have hc : check_duplicate ⟨pre ++ d :: post, false⟩ hash (some fname) = none := by
      unfold check_duplicate list_documents
      rw [if_neg (by simp), checkDupLoop_skip hash fname pre (d :: post) hpre,
        checkDupLoop, if_neg (fun hc => hdf hc.2), if_pos hff]
    exact ⟨hc, by rw [processDocumentDup, hc]; rfl⟩

/-- Witness for duplicate_scan_failure: a store whose only document is a true
content-hash duplicate, but whose chunk fetch raises. -/
theorem duplicate_scan_failure_witness :
    check_duplicate ⟨[], true⟩ "h" (some "f.pdf") = none ∧
      check_duplicate ⟨[⟨"doc_9", "old.pdf", [some "h9"], true⟩], false⟩ "h9" (some "new.pdf")
        = none ∧
      processDocumentDup ⟨[⟨"doc_9", "old.pdf", [some "h9"], true⟩], false⟩ "h9" "new.pdf"
        = none :=
  ⟨duplicate_scan_failure.1 [] "h" (some "f.pdf"),
    (duplicate_scan_failure.2 [] [] ⟨"doc_9", "old.pdf", [some "h9"], true⟩ "h9" "new.pdf"
      (by decide) (by simp) rfl (by decide) (by simp)).1,
    (duplicate_scan_failure.2 [] [] ⟨"doc_9", "old.pdf", [some "h9"], true⟩ "h9" "new.pdf"
      (by decide) (by simp) rfl (by decide) (by simp)).2⟩

/-! ## Conversation storage (claims C3, C4, C10) -/

/-- One role-tagged message of a conversation. -/
structure Msg where
  role : String
  content : String
deriving DecidableEq, Repr

/-- The in-memory self.conversations dictionary, as an insertion-ordered
association list. -/
abbrev ConvMap : Type := List (String × List Msg)

/-- Python dict lookup conversations.get(cid, []). -/
def convGet (m : ConvMap) (k : String) : List Msg :=
  (List.lookup k m).getD []

/-- Python dict assignment conversations[cid] = v: replace in place, or
append a new entry. -/
def convSet (m : ConvMap) (k : String) (v : List Msg) : ConvMap :=
  if m.any (fun p => p.1 == k) then
    m.map (fun p => if p.1 = k then (k, v) else p)
  else m ++ [(k, v)]

/-- The trailing truncation of _update_conversation (lines 444-445): keep
only the last 20 messages when more have accumulated. -/
def truncTo20 (l : List Msg) : List Msg :=
  if l.length > 20 then l.drop (l.length - 20) else l

/-- RAGEngine._update_conversation (lines 411-445): append the user question
and the assistant answer to the conversation, then truncate to the most
recent 20 messages. -/
def update_conversation (m : ConvMap) (cid q a : String) : ConvMap :=
  convSet m cid (truncTo20 (convGet m cid ++ [⟨"user", q⟩, ⟨"assistant", a⟩]))

/-- RAGEngine.get_conversation_history (lines 447-457). -/
def get_conversation_history (m : ConvMap) (cid : String) : List Msg :=
  convGet m cid

theorem lookup_set_replace : ∀ (l : List (String × List Msg)) (k : String) (v : List Msg),
    l.any (fun p => p.1 == k) = true →
    List.lookup k (l.map (fun p => if p.1 = k then (k, v) else p)) = some v
  | [], k, v, h => by simp at h
  | (a, b) :: rest, k, v, h => by
      by_cases hp : a = k
      · subst hp
        rw [List.map_cons, if_pos rfl]
        simp [List.lookup]
      · rw [List.map_cons, if_neg hp]
        have hk : (k == a) = false := by
          simp only [beq_eq_false_iff_ne, ne_eq]
          exact fun hh => hp hh.symm
        simp only [List.lookup, hk]
        apply lookup_set_replace rest k v
        simpa [hp] using h

theorem lookup_append_new : ∀ (l : List (String × List Msg)) (k : String) (v : List Msg),
    l.any (fun p => p.1 == k) = false →
    List.lookup k (l ++ [(k, v)]) = some v
  | [], k, v, _ => by simp [List.lookup]
  | (a, b) :: rest, k, v, h => by
      simp only [List.any_cons, Bool.or_eq_false_iff] at h
      have hk : (k == a) = false := by
        have := h.1
        simp only [beq_eq_false_iff_ne, ne_eq] at this ⊢
        exact fun hh => this hh.symm
      rw [List.cons_append]
      simp only [List.lookup, hk]
      exact lookup_append_new rest k v h.2

theorem convGet_set_self (m : ConvMap) (k : String) (v : List Msg) :
    convGet (convSet m k v) k = v := by
  unfold convSet convGet
  by_cases hany : m.any (fun p => p.1 == k)
  · rw [if_pos hany, lookup_set_replace m k v hany]
    rfl
  · rw [if_neg hany, lookup_append_new m k v (by
      simp only [Bool.not_eq_true] at hany
      exact hany)]
    rfl

theorem truncTo20_eq_drop (l : List Msg) : truncTo20 l = l.drop (l.length - 20) := by
  unfold truncTo20
  by_cases h : l.length > 20
  · rw [if_pos h]
  · rw [if_neg h, Nat.sub_eq_zero_of_le (by omega), List.drop_zero]

theorem truncTo20_append (x y : List Msg) :
    truncTo20 (truncTo20 x ++ y) = truncTo20 (x ++ y) := by
  rw [truncTo20_eq_drop, truncTo20_eq_drop, truncTo20_eq_drop]
  rcases le_or_lt x.length 20 with h | h
  · rw [Nat.sub_eq_zero_of_le h, List.drop_zero]
  · have hdl : (x.drop (x.length - 20)).length = 20 := by
      rw [List.length_drop]
      omega
    have hsplit : (x ++ y).drop (x.length - 20) = x.drop (x.length - 20) ++ y :=
      List.drop_append_of_le_length (by omega)
    calc (x.drop (x.length - 20) ++ y).drop ((x.drop (x.length - 20) ++ y).length - 20)
        = (x.drop (x.length - 20) ++ y).drop y.length := by
          rw [List.length_append, hdl]
          congr 1
          omega
      _ = ((x ++ y).drop (x.length - 20)).drop y.length := by rw [hsplit]
      _ = (x ++ y).drop ((x ++ y).length - 20) := by
          rw [List.drop_drop, List.length_append]
          congr 1
          omega

theorem truncTo20_idem (l : List Msg) : truncTo20 (truncTo20 l) = truncTo20 l := by
  have h := truncTo20_append l []
  simpa using h

/-- The messages that a sequence of question/answer exchanges appends. -/
def msgsOf : List (String × String) → List Msg
  | [] => []
  | p :: exs => ⟨"user", p.1⟩ :: ⟨"assistant", p.2⟩ :: msgsOf exs

theorem conv_fold (cid : String) : ∀ (exs : List (String × String)) (m : ConvMap),
    truncTo20 (convGet m cid) = convGet m cid →
    get_conversation_history
        (exs.foldl (fun st p => update_conversation st cid p.1 p.2) m) cid
      = truncTo20 (convGet m cid ++ msgsOf exs)
  | [], m, hm => by
      unfold get_conversation_history
      rw [List.foldl_nil, msgsOf, List.append_nil, hm]
  | p :: exs, m, hm => by
      rw [List.foldl_cons]
      have hstep : convGet (update_conversation m cid p.1 p.2) cid =
          truncTo20 (convGet m cid ++ [⟨"user", p.1⟩, ⟨"assistant", p.2⟩]) := by
        unfold update_conversation
        exact convGet_set_self m cid _
      rw [conv_fold cid exs (update_conversation m cid p.1 p.2)
          (by rw [hstep, truncTo20_idem]),
        hstep, truncTo20_append, List.append_assoc]
      rfl

/-- Claim C4: after any sequence of answered exchanges on one conversation
ID (starting from an empty store), the stored history is exactly the most
recent 20 of the appended messages, in order, and so never exceeds 20
entries. -/
theorem conversation_capped (cid : String) (exs : List (String × String)) :
    get_conversation_history
        (exs.foldl (fun st p => update_conversation st cid p.1 p.2) ([] : ConvMap)) cid
      = (msgsOf exs).drop ((msgsOf exs).length - 20) ∧
    (get_conversation_history
        (exs.foldl (fun st p => update_conversation st cid p.1 p.2) ([] : ConvMap)) cid).length
      ≤ 20 := by
  have h := conv_fold cid exs ([] : ConvMap) rfl
  have hempty : convGet ([] : ConvMap) cid = [] := rfl
  rw [hempty, List.nil_append] at h
  rw [h, truncTo20_eq_drop]
  refine ⟨rfl, ?_⟩
  rw [List.length_drop]
  omega

/-! ## Similarity search formatting (claim C6) -/

/-- The chunk metadata fields consulted by the answer pipeline. -/
structure ChunkMeta where
  documentId : Option String
  filename : Option String
  pageNumber : Option Nat
deriving DecidableEq, Repr

/-- One formatted result of search_similar_chunks (chroma_db.py lines
370-376). -/
structure RChunk where
  chunkId : String
  text : String
  metadata : ChunkMeta
  similarityScore : ℚ
  distance : ℚ
deriving DecidableEq, Repr

/-- The distance-to-similarity conversion on line 368 of chroma_db.py. -/
def similarity_score (d : ℚ) : ℚ := 1 / (1 + d)

/-- The result-formatting loop of search_similar_chunks (lines 362-378): each
returned row keeps its id, text, metadata and distance, and gets the
similarity score computed from its distance. -/
def search_similar_format (rows : List (String × String × ChunkMeta × ℚ)) : List RChunk :=
  rows.map (fun r => ⟨r.1, r.2.1, r.2.2.1, similarity_score r.2.2.2, r.2.2.2⟩)

/-- Claim C6: every formatted search result carries similarity 1/(1+d) for
its distance d; for d at least 0 the score lies in (0, 1]; and the score is
strictly decreasing in the distance. -/
theorem similarity_spec :
    (∀ (rows : List (String × String × ChunkMeta × ℚ)) (c : RChunk),
      c ∈ search_similar_format rows → c.similarityScore = 1 / (1 + c.distance)) ∧
    (∀ d : ℚ, 0 ≤ d → 0 < similarity_score d ∧ similarity_score d ≤ 1) ∧
    (∀ d e : ℚ, 0 ≤ d → d < e → similarity_score e < similarity_score d) := by
  refine ⟨?_, ?_, ?_⟩
  · intro rows c hc
    obtain ⟨r, hr, rfl⟩ := List.mem_map.mp hc
    rfl
  · intro d hd
    have hpos : (0 : ℚ) < 1 + d := by linarith
    unfold similarity_score
    exact ⟨div_pos one_pos hpos, (div_le_one hpos).mpr (by linarith)⟩
  · intro d e hd hde
    unfold similarity_score
    exact one_div_lt_one_div_of_lt (by linarith) (by linarith)

/-- Witness for similarity_spec at distances 0, 1 and 3. -/
theorem similarity_spec_witness :
    ((⟨"c1", "t", ⟨none, none, none⟩, similarity_score 3, 3⟩ : RChunk).similarityScore
        = 1 / (1 + (3 : ℚ))) ∧
      (0 < similarity_score 0 ∧ similarity_score 0 ≤ 1) ∧
      similarity_score 1 < similarity_score 0 :=
  ⟨similarity_spec.1 [("c1", "t", ⟨none, none, none⟩, 3)] _ (by
      simp [search_similar_format]),
    similarity_spec.2.1 0 le_rfl,
    similarity_spec.2.2 0 1 le_rfl (by norm_num)⟩

/-! ## The answer pipeline (claims C3 and C10) -/

/-- The source tag built for each retrieved chunk in _build_context
(rag_engine.py lines 366-375); a page number of 0 is falsy in Python and is
treated as missing. -/
def sourceTag (i : Nat) (m : ChunkMeta) : String :=
  "[Source " ++ toString i ++ " - " ++ m.filename.getD "Unknown" ++
    (match m.pageNumber with
     | some p => if p ≠ 0 then ", Page " ++ toString p else ""
     | none => "") ++ "]"

/-- RAGEngine._build_context (lines 353-381). -/
def build_context (chunks : List RChunk) : String :=
  String.intercalate "\n"
    (chunks.enum.map (fun p => sourceTag (p.1 + 1) p.2.metadata ++ "\n" ++ p.2.text ++ "\n"))

/-- Python round(x, n), modelled as round-half-up on rationals. -/
def roundTo (n : Nat) (q : ℚ) : ℚ :=
  ((Int.floor (q * (10 : ℚ) ^ n + 1 / 2) : ℤ) : ℚ) / (10 : ℚ) ^ n

/-- One source reference produced by _format_sources (lines 399-405). -/
structure SourceRef where
  documentId : Option String
  documentName : String
  pageNumber : Option Nat
  chunkText : String
  relevanceScore : ℚ
deriving DecidableEq, Repr

/-- The 200-character preview truncation on line 403. -/
def truncatePreview (s : String) : String :=
  if s.length > 200 then s.take 200 ++ "..." else s

/-- RAGEngine._format_sources (lines 383-409). -/
def format_sources (chunks : List RChunk) : List SourceRef :=
  chunks.map (fun c => ⟨c.metadata.documentId, c.metadata.filename.getD "Unknown",
    c.metadata.pageNumber, truncatePreview c.text, roundTo 4 c.similarityScore⟩)

/-- One LLM request log row, as produced by GroqClient.generate_answer via
log_llm_request. -/
structure LlmLog where
  requestType : String
  question : String
  conversationId : Option String
  success : Bool
deriving DecidableEq, Repr

/-- The result fields of answer_question that the claims inspect; llmCalled
records whether the pipeline reached the LLM call. -/
structure QAResult where
  answer : String
  sources : List SourceRef
  conversationId : String
  llmCalled : Bool
deriving DecidableEq, Repr

/-- The fixed answer returned on the zero-retrieval path (line 288). -/
def cannotFindAnswer : String :=
  "I couldn\x27t find any relevant information in the uploaded documents to answer this question."

/-- RAGEngine.answer_question (lines 240-347), with the external calls as
parameters: searchResults is what search_similar_chunks returned, freshId the
uuid-generated conversation ID used when none is supplied, and llm the Groq
client call, which returns the answer together with the log row that
generate_answer writes.  The state passed through is the conversation map
and the LLM request log table. -/
def answer_question (conv : ConvMap) (logs : List LlmLog)
    (searchResults : List RChunk) (question freshId : String) (convId : Option String)
    (llm : String → String → List Msg → String → String × LlmLog) :
    ConvMap × List LlmLog × QAResult :=
  let cid := match convId with
    | some c => c
    | none => freshId
  if searchResults.isEmpty then
    (conv, logs, ⟨cannotFindAnswer, [], cid, false⟩)
  else
    let context := build_context searchResults
    let history := convGet conv cid
    let res := llm question context history cid
    (update_conversation conv cid question res.1, logs ++ [res.2],
      ⟨res.1, format_sources searchResults, cid, true⟩)

/-- Claim C3: when the vector search returns zero chunks, answer_question
returns the fixed cannot-find answer with no sources and a conversation ID,
leaves the log table unchanged (no LLM request log row), and never invokes
the LLM. -/
theorem answer_question_empty (conv : ConvMap) (logs : List LlmLog)
    (question freshId : String) (convId : Option String)
    (llm : String → String → List Msg → String → String × LlmLog) :
    answer_question conv logs [] question freshId convId llm =
      (conv, logs,
        ⟨cannotFindAnswer, [],
          (match convId with | some c => c | none => freshId), false⟩) := rfl

/-- Claim C10: on the zero-retrieval path the conversation map is returned
unchanged, so get_conversation_history afterwards agrees with
get_conversation_history before, for every conversation ID. -/
theorem answer_question_empty_frame (conv : ConvMap) (logs : List LlmLog)
    (question freshId : String) (convId : Option String)
    (llm : String → String → List Msg → String → String × LlmLog) :
    (answer_question conv logs [] question freshId convId llm).1 = conv ∧
      ∀ k, get_conversation_history
            (answer_question conv logs [] question freshId convId llm).1 k
          = get_conversation_history conv k :=
  ⟨rfl, fun _ => rfl⟩

/-! ## Prompt template versioning (claim C5) -/

/-- One row of the prompt_templates table. -/
structure PromptRow where
  templateKey : String
  version : Nat
  templateText : String
  description : Option String
  isActive : Bool
deriving DecidableEq, Repr

/-- The max-version query of create_prompt_version (observability_service.py
lines 96-100): the maximum version among rows with the key, or 0 when none
exist (`scalar() or 0`). -/
def maxVersion (db : List PromptRow) (k : String) : Nat :=
  ((db.filter (fun r => r.templateKey == k)).map (fun r => r.version)).foldl max 0

/-- The bulk update on lines 102-106: mark every active row of the key
inactive. -/
def deactivateAll (db : List PromptRow) (k : String) : List PromptRow :=
  db.map (fun r => if r.templateKey = k ∧ r.isActive then
    { r with isActive := false } else r)

/-- ObservabilityService.create_prompt_version (lines 86-120): compute the
next version, deactivate the active rows of the key when activate is set,
insert the new row; returns the new table and the inserted row. -/
def create_prompt_version (db : List PromptRow) (k txt : String)
    (desc : Option String) (activate : Bool) : List PromptRow × PromptRow :=
  ((if activate then deactivateAll db k else db) ++
      [⟨k, maxVersion db k + 1, txt, desc, activate⟩],
    ⟨k, maxVersion db k + 1, txt, desc, activate⟩)

/-- ObservabilityService.ensure_prompt_template (lines 37-68): when any row
exists for the key the table is unchanged; otherwise an active version 1 is
inserted. -/
def ensure_prompt_template (db : List PromptRow) (k txt : String)
    (desc : Option String) : List PromptRow :=
  if db.any (fun r => r.templateKey == k) then db
  else db ++ [⟨k, 1, txt, desc, true⟩]

/-- The active rows of a key, in table order. -/
def activeRows (db : List PromptRow) (k : String) : List PromptRow :=
  db.filter (fun r => r.templateKey == k && r.isActive)

theorem activeRows_append (x y : List PromptRow) (k : String) :
    activeRows (x ++ y) k = activeRows x k ++ activeRows y k :=
  List.filter_append x y

theorem activeRows_deactivateAll_self (db : List PromptRow) (k : String) :
    activeRows (deactivateAll db k) k = [] := by
  apply List.filter_eq_nil_iff.mpr
  intro r hr
  obtain ⟨s, hs, rfl⟩ := List.mem_map.mp hr
  by_cases h : s.templateKey = k ∧ s.isActive
  · rw [if_pos h]
    simp
  · rw [if_neg h]
    simp only [Bool.and_eq_true, beq_iff_eq, not_and]
    intro hk
    rcases Decidable.em s.isActive with ha | ha
    · exact absurd ⟨hk, ha⟩ h
    · simpa using ha

theorem activeRows_deactivateAll_other (k k2 : String) (hne : k2 ≠ k) :
    ∀ db : List PromptRow, activeRows (deactivateAll db k) k2 = activeRows db k2
  | [] => rfl
  | r :: db => by
      have ih := activeRows_deactivateAll_other k k2 hne db
      unfold deactivateAll at ih ⊢
      rw [List.map_cons]
      by_cases h : r.templateKey = k ∧ r.isActive
      · rw [if_pos h]
        unfold activeRows at ih ⊢
        rw [List.filter_cons, List.filter_cons]
        have hk2 : (r.templateKey == k2) = false := by
          simp only [beq_eq_false_iff_ne, ne_eq]
          rw [h.1]
          exact fun hh => hne hh.symm
        have hcond1 : ¬((({ r with isActive := false } : PromptRow).templateKey == k2 &&
            ({ r with isActive := false } : PromptRow).isActive) = true) := by simp
        have hcond2 : ¬((r.templateKey == k2 && r.isActive) = true) := by simp [hk2]
        rw [if_neg hcond1, if_neg hcond2]
        exact ih
      · rw [if_neg h]
        unfold activeRows at ih ⊢
        rw [List.filter_cons, List.filter_cons]
        by_cases hp : (r.templateKey == k2 && r.isActive) = true
        · rw [if_pos hp, if_pos hp, ih]
        · rw [if_neg hp, if_neg hp, ih]

/-- Claim C5: create_prompt_version always inserts version max+1 (so 1 when
no version exists); with activate it leaves the new row as the sole active
row of the key; without activate the active rows of every key are unchanged (so a
previously sole active row stays the sole active row); ensure_prompt_template
inserts an active version 1 exactly when no row exists for the key; and both
operations preserve the at-most-one-active invariant for every key. -/
theorem prompt_version_spec :
    (∀ (db : List PromptRow) (k txt : String) (desc : Option String) (act : Bool),
      (create_prompt_version db k txt desc act).2.version = maxVersion db k + 1) ∧
    (∀ (db : List PromptRow) (k : String),
      (∀ r ∈ db, r.templateKey ≠ k) → maxVersion db k = 0) ∧
    (∀ (db : List PromptRow) (k txt : String) (desc : Option String),
      activeRows (create_prompt_version db k txt desc true).1 k =
        [⟨k, maxVersion db k + 1, txt, desc, true⟩]) ∧
    (∀ (db : List PromptRow) (k txt : String) (desc : Option String) (k2 : String),
      activeRows (create_prompt_version db k txt desc false).1 k2 = activeRows db k2) ∧
    (∀ (db : List PromptRow) (k txt : String) (desc : Option String) (r : PromptRow),
      activeRows db k = [r] →
      activeRows (create_prompt_version db k txt desc false).1 k = [r]) ∧
    (∀ (db : List PromptRow) (k txt : String) (desc : Option String),
      (∀ r ∈ db, r.templateKey ≠ k) →
      ensure_prompt_template db k txt desc = db ++ [⟨k, 1, txt, desc, true⟩]) ∧
    (∀ (db : List PromptRow) (k txt : String) (desc : Option String) (r : PromptRow),
      r ∈ db → r.templateKey = k → ensure_prompt_template db k txt desc = db) ∧
    (∀ (db : List PromptRow) (k txt : String) (desc : Option String) (act : Bool)
      (k2 : String), (activeRows db k2).length ≤ 1 →
      (activeRows (create_prompt_version db k txt desc act).1 k2).length ≤ 1) ∧
    (∀ (db : List PromptRow) (k txt : String) (desc : Option String) (k2 : String),
      (activeRows db k2).length ≤ 1 →
      (activeRows (ensure_prompt_template db k txt desc) k2).length ≤ 1) := by
  have hrow_self : ∀ (k txt : String) (desc : Option String) (v : Nat),
      activeRows [⟨k, v, txt, desc, true⟩] k = [⟨k, v, txt, desc, true⟩] := by
    intro k txt desc v
    unfold activeRows
    rw [List.filter_cons, if_pos (by simp)]
    rfl
  have hrow_inactive : ∀ (k txt : String) (desc : Option String) (v : Nat) (k2 : String),
      activeRows [⟨k, v, txt, desc, false⟩] k2 = [] := by
    intro k txt desc v k2
    unfold activeRows
    rw [List.filter_cons, if_neg (by simp)]
    rfl
  have hrow_other : ∀ (k txt : String) (desc : Option String) (v : Nat) (k2 : String),
      k2 ≠ k → activeRows [⟨k, v, txt, desc, true⟩] k2 = [] := by
    intro k txt desc v k2 hne
    unfold activeRows
    rw [List.filter_cons, if_neg (by simp; exact fun hh => absurd hh.symm hne)]
    rfl
  have hnone : ∀ (db : List PromptRow) (k : String),
      (∀ r ∈ db, r.templateKey ≠ k) → activeRows db k = [] := by
    intro db k h
    apply List.filter_eq_nil_iff.mpr
    intro r hr
    simp only [Bool.and_eq_true, beq_iff_eq, not_and]
    intro hk
    exact absurd hk (h r hr)
  have hcreate_true : ∀ (db : List PromptRow) (k txt : String) (desc : Option String),
      activeRows (create_prompt_version db k txt desc true).1 k =
        [⟨k, maxVersion db k + 1, txt, desc, true⟩] := by
    intro db k txt desc
    unfold create_prompt_version
    rw [if_pos rfl, activeRows_append, activeRows_deactivateAll_self, List.nil_append,
      hrow_self]
  have hcreate_false : ∀ (db : List PromptRow) (k txt : String) (desc : Option String)
      (k2 : String),
      activeRows (create_prompt_version db k txt desc false).1 k2 = activeRows db k2 := by
    intro db k txt desc k2
    unfold create_prompt_version
    rw [if_neg (by simp), activeRows_append, hrow_inactive, List.append_nil]
  refine ⟨fun db k txt desc act => rfl, ?_, hcreate_true, hcreate_false, ?_, ?_, ?_, ?_, ?_⟩
  · intro db k h
    unfold maxVersion
    rw [List.filter_eq_nil_iff.mpr (fun r hr => by simpa using h r hr)]
    rfl
  · intro db k txt desc r hr
    rw [hcreate_false db k txt desc k, hr]
  · intro db k txt desc h
    unfold ensure_prompt_template
    rw [if_neg (by
      simp only [List.any_eq_true, not_exists]
      intro r
      rintro ⟨hr, hk⟩
      exact absurd (by simpa using hk) (h r hr))]
  · intro db k txt desc r hr hk
    unfold ensure_prompt_template
    rw [if_pos (List.any_eq_true.mpr ⟨r, hr, by simpa using hk⟩)]
  · intro db k txt desc act k2 hlen
    cases act with
    | true =>
        by_cases hk : k2 = k
        · subst hk
          rw [hcreate_true]
          rfl
        · unfold create_prompt_version
          rw [if_pos rfl, activeRows_append, activeRows_deactivateAll_other k k2 hk,
            hrow_other k txt desc _ k2 hk, List.append_nil]
          exact hlen
    | false =>
        rw [hcreate_false]
        exact hlen
  · intro db k txt desc k2 hlen
    unfold ensure_prompt_template
    by_cases hany : db.any (fun r => r.templateKey == k)
    · rw [if_pos hany]
      exact hlen
    · rw [if_neg hany]
      have hnok : ∀ r ∈ db, r.templateKey ≠ k := by
        intro r hr hk
        exact absurd (List.any_eq_true.mpr ⟨r, hr, by simpa using hk⟩) hany
      by_cases hk : k2 = k
      · subst hk
        rw [activeRows_append, hnone db k2 hnok, List.nil_append, hrow_self]
        rfl
      · rw [activeRows_append, hrow_other k txt desc _ k2 hk, List.append_nil]
        exact hlen

/-- Witness for prompt_version_spec: create version 2 of a key whose version
1 is active, with and without activation, and ensure on a fresh key. -/
theorem prompt_version_spec_witness :
    (create_prompt_version [⟨"k", 1, "t1", none, true⟩] "k" "t2" none true).2.version = 2 ∧
      activeRows (create_prompt_version [⟨"k", 1, "t1", none, true⟩] "k" "t2" none true).1 "k"
        = [⟨"k", 2, "t2", none, true⟩] ∧
      activeRows (create_prompt_version [⟨"k", 1, "t1", none, true⟩] "k" "t2" none false).1 "k"
        = [⟨"k", 1, "t1", none, true⟩] ∧
      ensure_prompt_template [] "k" "t1" none = [⟨"k", 1, "t1", none, true⟩] ∧
      ensure_prompt_template [⟨"k", 1, "t1", none, true⟩] "k" "t2" none
        = [⟨"k", 1, "t1", none, true⟩] ∧
      (activeRows (create_prompt_version [⟨"k", 1, "t1", none, true⟩] "k" "t2" none true).1
        "k").length ≤ 1 :=
  ⟨prompt_version_spec.1 [⟨"k", 1, "t1", none, true⟩] "k" "t2" none true,
    by
      have h := prompt_version_spec.2.2.1 [⟨"k", 1, "t1", none, true⟩] "k" "t2" none
      rw [h]
      rfl,
    prompt_version_spec.2.2.2.2.1 [⟨"k", 1, "t1", none, true⟩] "k" "t2" none
      ⟨"k", 1, "t1", none, true⟩ (by decide),
    by
      have h := prompt_version_spec.2.2.2.2.2.1 [] "k" "t1" none (by simp)
      rw [h]
      rfl,
    prompt_version_spec.2.2.2.2.2.2.1 [⟨"k", 1, "t1", none, true⟩] "k" "t2" none
      ⟨"k", 1, "t1", none, true⟩ (by simp) rfl,
    prompt_version_spec.2.2.2.2.2.2.2.1 [⟨"k", 1, "t1", none, true⟩] "k" "t2" none true "k"
      (by decide)⟩

/-! ## Embeddings (claim C8) -/

/-- EmbeddingService.generate_embedding (embeddings.py lines 73-104), with
the sentence-transformer encoder as a parameter: blank text short-circuits
to a zero vector of the model dimension and never reaches the encoder. -/
def generate_embedding (enc : String → List ℚ) (dim : Nat) (text : String) : List ℚ :=
  if pyStrip text.toList = [] then List.replicate dim 0 else enc text

/-- EmbeddingService.generate_embeddings (lines 106-153): an empty list
returns immediately; otherwise every element, blank or not, is passed to the
encoder (model.encode on the batch). -/
def generate_embeddings (enc : String → List ℚ) (texts : List String) : List (List ℚ) :=
  if texts.isEmpty then [] else texts.map enc

/-- Counterexample to claim C8 as stated: nothing routes blank batch elements
through the single-text zero-vector short-circuit, so for any encoder that
does not send the empty string to the zero vector (the sentence-transformer
encoder normalizes its outputs to unit length) the batch result differs from
the element-wise single result. -/
theorem embeddings_batch_counterexample :
    generate_embeddings (fun _ => ([1] : List ℚ)) [""] ≠
      List.map (generate_embedding (fun _ => ([1] : List ℚ)) 1) [""] := by
  decide

/-- Claim C8 (amended): the batch variant agrees with mapping the single
variant over the list whenever no element is empty or whitespace-only, and
the single variant returns a zero vector of the model dimension on empty or
whitespace-only text. -/
theorem embeddings_batch_spec :
    (∀ (enc : String → List ℚ) (dim : Nat) (texts : List String),
      (∀ t ∈ texts, pyStrip t.toList ≠ []) →
      generate_embeddings enc texts = texts.map (generate_embedding enc dim)) ∧
    (∀ (enc : String → List ℚ) (dim : Nat) (t : String),
      pyStrip t.toList = [] → generate_embedding enc dim t = List.replicate dim 0) := by
  constructor
  · intro enc dim texts h
    unfold generate_embeddings
    cases texts with
    | nil => rfl
    | cons t ts =>
        rw [if_neg (by simp)]
        apply List.map_congr_left
        intro x hx
        unfold generate_embedding
        rw [if_neg (h x hx)]
  · intro enc dim t ht
    unfold generate_embedding
    rw [if_pos ht]

/-- Witness for embeddings_batch_spec: a one-element non-blank batch, and the
single variant on a whitespace-only text. -/
theorem embeddings_batch_spec_witness :
    generate_embeddings (fun _ => ([1] : List ℚ)) ["a"] =
        List.map (generate_embedding (fun _ => ([1] : List ℚ)) 3) ["a"] ∧
      generate_embedding (fun _ => ([1] : List ℚ)) 3 " " = List.replicate 3 0 :=
  ⟨embeddings_batch_spec.1 (fun _ => ([1] : List ℚ)) 3 ["a"] (by decide),
    embeddings_batch_spec.2 (fun _ => ([1] : List ℚ)) 3 " " (by decide)⟩

end RagSpec
